import Mathlib

/-!
Shallow embedding of the availability-aware booking core of the
alx_travel_app listings application (src/alx_travel_app/listings/views.py),
together with theorems checking the natural-language specification against it.

Dates are modelled as natural numbers (ISO `YYYY-MM-DD` strings compare
lexicographically, which agrees with numeric order on the digits-only
encoding `YYYYMMDD`).  Users and listings are identified by numeric ids.
All definitions are translated from the source; the parts of the repository
that are not in `src/` (the `Booking` model / `BookingCreateSerializer`
validation) are modelled from the spec and are marked as such.
-/

namespace AlxTravel

/-- Booking status values, `Booking.status ∈ {pending, confirmed, cancelled, completed}`. -/
inductive BStatus where
  | pending
  | confirmed
  | cancelled
  | completed
deriving DecidableEq, Repr

/-- The stored string value of a status (Django stores statuses as strings;
these are the values interpolated into error messages in `views.py`). -/
def statusName : BStatus → String
  | .pending => "pending"
  | .confirmed => "confirmed"
  | .cancelled => "cancelled"
  | .completed => "completed"

/-- A travel listing: the fields of the `Listing` model that the core logic
in `views.py` reads (`id`, `price_per_night`, `is_active`). -/
structure Listing where
  id : Nat
  price_per_night : Int
  is_active : Bool
deriving DecidableEq, Repr

/-- A booking: the fields of the `Booking` model that the core logic in
`views.py` reads (`id`, `listing_id`, `user`, `check_in_date`,
`check_out_date`, `status`). -/
structure Booking where
  id : Nat
  listing_id : Nat
  user : Nat
  check_in_date : Nat
  check_out_date : Nat
  status : BStatus
deriving DecidableEq, Repr

/-- `status__in=['confirmed', 'pending']` from
`ListingViewSet.get_queryset` (views.py line 72). -/
def isActiveStatus (s : BStatus) : Bool :=
  s == BStatus.confirmed || s == BStatus.pending

/-- `Q(check_in_date__lt=check_out) & Q(check_out_date__gt=check_in)` from
`ListingViewSet.get_queryset` (views.py line 71): the half-open overlap test
of a stored booking against the requested range. -/
def overlapsRange (b : Booking) (check_in check_out : Nat) : Bool :=
  b.check_in_date < check_out && b.check_out_date > check_in

/-- `Booking.objects.filter(...).values_list('listing_id', flat=True)` from
`ListingViewSet.get_queryset` (views.py lines 70-73): the listing ids of all
bookings with status in {confirmed, pending} overlapping the requested range. -/
def overlappingBookingListingIds (bookings : List Booking) (check_in check_out : Nat) :
    List Nat :=
  (bookings.filter (fun b => isActiveStatus b.status && overlapsRange b check_in check_out)).map
    (fun b => b.listing_id)

/-- The query parameters read by `ListingViewSet.get_queryset`:
`min_price`, `max_price`, `check_in_date`, `check_out_date`.
`none` models an absent (or empty, hence falsy) parameter. -/
structure ListingQueryParams where
  min_price : Option Int
  max_price : Option Int
  check_in_date : Option Nat
  check_out_date : Option Nat
deriving DecidableEq, Repr

/-- `ListingViewSet.get_queryset` (views.py lines 51-76): starting from
`Listing.objects.filter(is_active=True)`, optionally narrow by price range,
then, when both dates are supplied, exclude listings having a booking with
status in {confirmed, pending} overlapping the requested range. -/
def listingGetQueryset (listings : List Listing) (bookings : List Booking)
    (p : ListingQueryParams) : List Listing :=
  let qs := listings.filter (fun l => l.is_active)
  let qs := match p.min_price with
    | some m => qs.filter (fun l => m ≤ l.price_per_night)
    | none => qs
  let qs := match p.max_price with
    | some m => qs.filter (fun l => l.price_per_night ≤ m)
    | none => qs
  match p.check_in_date, p.check_out_date with
  | some ci, some co =>
      qs.filter (fun l => !((overlappingBookingListingIds bookings ci co).contains l.id))
  | _, _ => qs

/-- `ListingViewSet.available` (views.py lines 86-101): 400-error when either
date parameter is missing, otherwise the result of `get_queryset` (which sees
the same query parameters, price filters included). -/
def availableAction (listings : List Listing) (bookings : List Booking)
    (p : ListingQueryParams) : Except String (List Listing) :=
  match p.check_in_date, p.check_out_date with
  | some _, some _ => .ok (listingGetQueryset listings bookings p)
  | _, _ => .error "Both check_in_date and check_out_date are required"

/-- `BookingViewSet.get_queryset` (views.py lines 117-119):
`Booking.objects.filter(user=self.request.user)`. -/
def bookingGetQueryset (bookings : List Booking) (user : Nat) : List Booking :=
  bookings.filter (fun b => b.user == user)

/-- DRF `self.get_object()` as used by `BookingViewSet.cancel` / `confirm`
(views.py lines 139, 164): look the primary key up inside `get_queryset()`;
a booking outside it (another user's) is a 404, as if it did not exist. -/
def getObject (bookings : List Booking) (user pk : Nat) : Option Booking :=
  (bookingGetQueryset bookings user).find? (fun b => b.id == pk)

/-- `booking.save()` after a status change: replace the stored row with the
given primary key by the updated booking. -/
def updateBooking (bookings : List Booking) (b : Booking) : List Booking :=
  bookings.map (fun x => if x.id == b.id then b else x)

/-- `BookingViewSet.cancel` (views.py lines 136-154): 404 when the booking is
not in the caller's queryset; 400 naming the current status when it is already
`cancelled` or `completed`; otherwise set status to `cancelled` and save.
Returns the updated booking store on success. -/
def cancel (bookings : List Booking) (user pk : Nat) : Except String (List Booking) :=
  match getObject bookings user pk with
  | none => .error "Not found"
  | some b =>
      if b.status == BStatus.cancelled || b.status == BStatus.completed then
        .error ("Cannot cancel a booking that is already " ++ statusName b.status)
      else
        .ok (updateBooking bookings { b with status := BStatus.cancelled })

/-- `BookingViewSet.confirm` (views.py lines 161-179): 404 when the booking is
not in the caller's queryset; 400 naming the current status when it is not
`pending`; otherwise set status to `confirmed` and save.
Returns the updated booking store on success. -/
def confirm (bookings : List Booking) (user pk : Nat) : Except String (List Booking) :=
  match getObject bookings user pk with
  | none => .error "Not found"
  | some b =>
      if b.status != BStatus.pending then
        .error ("Cannot confirm a booking that is " ++ statusName b.status)
      else
        .ok (updateBooking bookings { b with status := BStatus.confirmed })

/-- Modelled from the spec: the single-listing `isAvailable(listing, checkIn,
checkOut)` contract of §4.1 (the `BookingCreateSerializer` validation code is
not under `src/`): no booking on the listing with status in
{pending, confirmed} overlaps `[checkIn, checkOut)` under the half-open test.
The overlap test itself is the one from `views.py` lines 70-73. -/
def isAvailable (bookings : List Booking) (lid check_in check_out : Nat) : Bool :=
  (bookings.filter (fun b =>
    b.listing_id == lid && isActiveStatus b.status && overlapsRange b check_in check_out)).isEmpty

/-- Error taxonomy of spec §7 for booking creation. -/
inductive CreateError where
  | invalidDates
  | notFound
  | conflict
deriving DecidableEq, Repr

/-- The persisted store the viewsets operate over: listings, bookings, and the
next free booking primary key. -/
structure Store where
  listings : List Listing
  bookings : List Booking
  nextId : Nat
deriving DecidableEq, Repr

/-- Modelled from the spec: `createBooking(listing, actor, checkIn, checkOut)`
of §4.2 (the `BookingCreateSerializer` validation code is not under `src/`;
`BookingViewSet.perform_create`, views.py lines 127-129, supplies
`user = request.user`).  Preconditions `checkIn < checkOut` and an active
listing; re-validates with `isAvailable` against the current booking set;
on success persists a new `pending` booking owned by the actor; fails with
`Conflict` when the interval overlaps a non-terminal booking. -/
def createBooking (s : Store) (lid user check_in check_out : Nat) :
    Except CreateError Store :=
  if check_out ≤ check_in then .error .invalidDates
  else if !(s.listings.any (fun l => l.id == lid && l.is_active)) then .error .notFound
  else if isAvailable s.bookings lid check_in check_out then
    .ok { s with
          bookings := s.bookings ++
            [⟨s.nextId, lid, user, check_in, check_out, BStatus.pending⟩],
          nextId := s.nextId + 1 }
  else .error .conflict

/-- The booking-affecting operations.  Spec §5 requires each one to run as an
atomic conflict-check-and-write unit (writes serialized per listing), so a
concurrent history is an arbitrary interleaving, i.e. an arbitrary sequence,
of these atomic operations. -/
inductive Op where
  | create (lid user check_in check_out : Nat)
  | doConfirm (user pk : Nat)
  | doCancel (user pk : Nat)
deriving DecidableEq, Repr

/-- Apply one operation to the store; a failed operation leaves it unchanged. -/
def applyOp (s : Store) : Op → Store
  | .create lid user ci co =>
      match createBooking s lid user ci co with
      | .ok s2 => s2
      | .error _ => s
  | .doConfirm user pk =>
      match confirm s.bookings user pk with
      | .ok bs => { s with bookings := bs }
      | .error _ => s
  | .doCancel user pk =>
      match cancel s.bookings user pk with
      | .ok bs => { s with bookings := bs }
      | .error _ => s

/-- Run a sequence of operations. -/
def runOps (s : Store) (ops : List Op) : Store :=
  ops.foldl applyOp s

/-- The symmetric half-open overlap test between two stored bookings. -/
def overlapB (a b : Booking) : Bool :=
  a.check_in_date < b.check_out_date && a.check_out_date > b.check_in_date

/-- Two bookings are compatible when, if they are on the same listing and both
have status in {pending, confirmed}, their intervals do not overlap. -/
def conflictOK (a b : Booking) : Prop :=
  a.listing_id = b.listing_id → isActiveStatus a.status = true →
    isActiveStatus b.status = true → overlapB a b = false

instance (a b : Booking) : Decidable (conflictOK a b) := by
  unfold conflictOK; infer_instance

/-- The no-double-booking invariant: bookings with status in
{pending, confirmed} on the same listing have pairwise non-overlapping
`[check_in_date, check_out_date)` intervals. -/
def conflictFree (bookings : List Booking) : Prop :=
  List.Pairwise conflictOK bookings

/-- The store invariant: conflict-free bookings, no duplicated primary keys,
and every primary key below the next free one. -/
def StoreInv (s : Store) : Prop :=
  conflictFree s.bookings ∧ (s.bookings.map Booking.id).Nodup ∧
    ∀ b ∈ s.bookings, b.id < s.nextId

/-- The availability filter as the spec words it: the input listings minus
those having at least one booking with status pending or confirmed satisfying
`booking.check_in_date < checkOut AND booking.check_out_date > checkIn`. -/
def listAvailableSpec (listings : List Listing) (bookings : List Booking)
    (check_in check_out : Nat) : List Listing :=
  listings.filter (fun l => !(bookings.any (fun b =>
    (b.status == BStatus.pending || b.status == BStatus.confirmed) &&
      b.check_in_date < check_out && b.check_out_date > check_in &&
      b.listing_id == l.id)))

/-! ### Helper lemmas -/

theorem find?_filter_and (l : List Booking) (p q : Booking → Bool) :
    (l.filter p).find? q = l.find? (fun a => p a && q a) := by
  induction l with
  | nil => rfl
  | cons a t ih =>
    rw [List.filter_cons]
    by_cases h : p a = true
    · rw [if_pos h, List.find?_cons, List.find?_cons, h, Bool.true_and]
      cases hq : q a
      · exact ih
      · rfl
    · rw [if_neg h, ih, List.find?_cons, Bool.eq_false_iff.mpr h, Bool.false_and]

theorem getObject_eq_find? (bookings : List Booking) (user pk : Nat) :
    getObject bookings user pk =
      bookings.find? (fun b => (b.user == user) && (b.id == pk)) := by
  unfold getObject bookingGetQueryset
  exact find?_filter_and bookings _ _

theorem getObject_mem (bookings : List Booking) (user pk : Nat) (b : Booking)
    (hb : getObject bookings user pk = some b) :
    b ∈ bookings ∧ b.user = user ∧ b.id = pk := by
  rw [getObject_eq_find?] at hb
  have hmem := List.mem_of_find?_eq_some hb
  have hp := List.find?_some hb
  rw [Bool.and_eq_true, beq_iff_eq, beq_iff_eq] at hp
  exact ⟨hmem, hp.1, hp.2⟩

theorem getObject_updateBooking (bookings : List Booking) (user pk : Nat) (b c : Booking)
    (hb : getObject bookings user pk = some b) (hid : c.id = b.id) (huser : c.user = b.user) :
    getObject (updateBooking bookings c) user pk = some c := by
  obtain ⟨hmem, hu, hk⟩ := getObject_mem bookings user pk b hb
  have hcpk : c.id = pk := by rw [hid, hk]
  have hcu : c.user = user := by rw [huser, hu]
  rw [getObject_eq_find?]
  unfold updateBooking
  rw [List.find?_map]
  have hfun : ((fun x => (x.user == user) && (x.id == pk)) ∘
      fun x => if x.id == c.id then c else x) = fun x => x.id == pk := by
    funext x
    simp only [Function.comp_apply, hcpk]
    by_cases hx : x.id = pk
    · simp [hx, hcpk, hcu]
    · simp [hx]
  rw [hfun]
  have hsome : (bookings.find? (fun x => x.id == pk)).isSome := by
    rw [List.find?_isSome]
    exact ⟨b, hmem, by rw [hk]; exact beq_self_eq_true pk⟩
  obtain ⟨x0, hx0⟩ := Option.isSome_iff_exists.mp hsome
  have hx0p := List.find?_some hx0
  rw [beq_iff_eq] at hx0p
  rw [hx0]
  have hfx0 : (if (x0.id == c.id) = true then c else x0) = c := by
    have hxc : (x0.id == c.id) = true := by rw [beq_iff_eq, hx0p, hcpk]
    rw [if_pos hxc]
  have hms : Option.map (fun x => if x.id == c.id then c else x) (some x0) =
      some (if (x0.id == c.id) = true then c else x0) := rfl
  rw [hms, hfx0]

theorem filter_map_stable (l : List Booking) (f : Booking → Booking) (p : Booking → Bool)
    (h : ∀ x ∈ l, p (f x) = p x ∧ (p x = true → f x = x)) :
    (l.map f).filter p = l.filter p := by
  induction l with
  | nil => rfl
  | cons a t ih =>
    obtain ⟨h1, h2⟩ := h a (List.mem_cons_self a t)
    have ht := ih (fun x hx => h x (List.mem_cons_of_mem a hx))
    rw [List.map_cons, List.filter_cons, List.filter_cons, h1]
    by_cases hp : p a = true
    · rw [if_pos hp, if_pos hp, h2 hp, ht]
    · rw [if_neg hp, if_neg hp, ht]

theorem contains_overlapping_iff (bookings : List Booking) (ci co i : Nat) :
    (overlappingBookingListingIds bookings ci co).contains i = true ↔
      ∃ b ∈ bookings, isActiveStatus b.status = true ∧ overlapsRange b ci co = true ∧
        b.listing_id = i := by
  unfold overlappingBookingListingIds
  rw [List.contains_eq_any_beq, List.any_eq_true]
  constructor
  · rintro ⟨x, hx, hbeq⟩
    obtain ⟨b, hbmem, rfl⟩ := List.mem_map.mp hx
    obtain ⟨hb, hcond⟩ := List.mem_filter.mp hbmem
    rw [Bool.and_eq_true] at hcond
    rw [beq_iff_eq] at hbeq
    exact ⟨b, hb, hcond.1, hcond.2, hbeq.symm⟩
  · rintro ⟨b, hb, hact, hov, hlid⟩
    refine ⟨b.listing_id, List.mem_map.mpr ⟨b, List.mem_filter.mpr ⟨hb, ?_⟩, rfl⟩, ?_⟩
    · rw [Bool.and_eq_true]; exact ⟨hact, hov⟩
    · rw [beq_iff_eq]; exact hlid.symm

theorem isAvailable_iff (bookings : List Booking) (lid ci co : Nat) :
    isAvailable bookings lid ci co = true ↔
      ∀ b ∈ bookings, b.listing_id = lid → isActiveStatus b.status = true →
        overlapsRange b ci co = false := by
  unfold isAvailable
  rw [List.isEmpty_iff, List.filter_eq_nil_iff]
  constructor
  · intro h b hb hlid hact
    have := h b hb
    rw [Bool.and_eq_true, Bool.and_eq_true, beq_iff_eq] at this
    by_contra hov
    rw [Bool.not_eq_false] at hov
    exact this ⟨⟨hlid, hact⟩, hov⟩
  · intro h b hb hcond
    rw [Bool.and_eq_true, Bool.and_eq_true, beq_iff_eq] at hcond
    have hov := h b hb hcond.1.1 hcond.1.2
    rw [hcond.2] at hov
    simp at hov

theorem conflictFree_map (l : List Booking) (f : Booking → Booking)
    (h : ∀ x ∈ l, (f x).listing_id = x.listing_id ∧
      (f x).check_in_date = x.check_in_date ∧ (f x).check_out_date = x.check_out_date ∧
      (isActiveStatus (f x).status = true → isActiveStatus x.status = true)) :
    conflictFree l → conflictFree (l.map f) := by
  intro hp
  unfold conflictFree at *
  rw [List.pairwise_map]
  refine hp.imp_of_mem ?_
  intro a b ha hb hab hl hsa hsb
  obtain ⟨la, ca, oa, sa⟩ := h a ha
  obtain ⟨lb, cb, ob, sb⟩ := h b hb
  unfold overlapB
  rw [ca, ob, oa, cb]
  rw [la, lb] at hl
  exact hab hl (sa hsa) (sb hsb)

theorem id_injective_of_nodup (l : List Booking)
    (hnd : (l.map Booking.id).Nodup) (x y : Booking)
    (hx : x ∈ l) (hy : y ∈ l) (hxy : x.id = y.id) : x = y :=
  List.inj_on_of_nodup_map hnd hx hy hxy

theorem updateStatus_preserves_inv (s : Store) (b : Booking) (st : BStatus)
    (hinv : StoreInv s) (hmem : b ∈ s.bookings)
    (hact : isActiveStatus st = true → isActiveStatus b.status = true) :
    StoreInv { s with bookings := updateBooking s.bookings { b with status := st } } := by
  obtain ⟨hcf, hnd, hbound⟩ := hinv
  have hidf : ∀ x : Booking,
      ((if x.id == b.id then { b with status := st } else x) : Booking).id = x.id := by
    intro x
    by_cases hx : x.id = b.id
    · rw [if_pos (beq_iff_eq.mpr hx)]; exact hx.symm
    · rw [if_neg (by simpa using hx)]
  refine ⟨?_, ?_, ?_⟩
  · refine conflictFree_map s.bookings _ ?_ hcf
    intro x hx
    by_cases hxb : x.id = b.id
    · have hxeq : x = b := id_injective_of_nodup s.bookings hnd x b hx hmem hxb
      subst hxeq
      rw [if_pos (beq_iff_eq.mpr rfl)]
      exact ⟨rfl, rfl, rfl, hact⟩
    · rw [if_neg (by simpa using hxb)]
      exact ⟨rfl, rfl, rfl, fun h => h⟩
  · unfold updateBooking
    rw [List.map_map]
    have : (Booking.id ∘ fun x => if x.id == b.id then { b with status := st } else x) =
        Booking.id := by
      funext x
      exact hidf x
    rw [this]
    exact hnd
  · intro x hx
    unfold updateBooking at hx
    obtain ⟨y, hy, rfl⟩ := List.mem_map.mp hx
    rw [hidf y]
    exact hbound y hy

theorem confirm_inverted (bookings : List Booking) (user pk : Nat) (bs : List Booking)
    (h : confirm bookings user pk = .ok bs) :
    ∃ b, getObject bookings user pk = some b ∧ b.status = BStatus.pending ∧
      bs = updateBooking bookings { b with status := BStatus.confirmed } := by
  unfold confirm at h
  split at h
  · cases h
  · rename_i b hobj
    split at h
    · cases h
    · rename_i hst
      cases h
      rw [bne_iff_ne, Ne, not_not] at hst
      exact ⟨b, hobj, hst, rfl⟩

theorem cancel_inverted (bookings : List Booking) (user pk : Nat) (bs : List Booking)
    (h : cancel bookings user pk = .ok bs) :
    ∃ b, getObject bookings user pk = some b ∧
      (b.status = BStatus.pending ∨ b.status = BStatus.confirmed) ∧
      bs = updateBooking bookings { b with status := BStatus.cancelled } := by
  unfold cancel at h
  split at h
  · cases h
  · rename_i b hobj
    split at h
    · cases h
    · rename_i hst
      cases h
      refine ⟨b, hobj, ?_, rfl⟩
      rw [Bool.or_eq_true, beq_iff_eq, beq_iff_eq] at hst
      push_neg at hst
      cases hs : b.status with
      | pending => exact Or.inl rfl
      | confirmed => exact Or.inr rfl
      | cancelled => exact absurd hs hst.1
      | completed => exact absurd hs hst.2

theorem create_inverted (s : Store) (lid user ci co : Nat) (s2 : Store)
    (h : createBooking s lid user ci co = .ok s2) :
    ci < co ∧ s.listings.any (fun l => l.id == lid && l.is_active) = true ∧
      isAvailable s.bookings lid ci co = true ∧
      s2 = { s with
             bookings := s.bookings ++
               [⟨s.nextId, lid, user, ci, co, BStatus.pending⟩],
             nextId := s.nextId + 1 } := by
  unfold createBooking at h
  by_cases h1 : co ≤ ci
  · rw [if_pos h1] at h; cases h
  · rw [if_neg h1] at h
    by_cases h2 : s.listings.any (fun l => l.id == lid && l.is_active) = true
    · rw [if_neg (by simpa using h2)] at h
      by_cases h3 : isAvailable s.bookings lid ci co = true
      · rw [if_pos h3] at h
        cases h
        exact ⟨Nat.lt_of_not_le h1, h2, h3, rfl⟩
      · rw [if_neg h3] at h; cases h
    · rw [if_pos (by simpa using h2)] at h; cases h

theorem create_preserves_inv (s : Store) (lid user ci co : Nat) (s2 : Store)
    (hinv : StoreInv s) (h : createBooking s lid user ci co = .ok s2) :
    StoreInv s2 := by
  obtain ⟨hcf, hnd, hbound⟩ := hinv
  obtain ⟨hd, hl, hav, rfl⟩ := create_inverted s lid user ci co s2 h
  refine ⟨?_, ?_, ?_⟩
  · unfold conflictFree
    rw [List.pairwise_append]
    refine ⟨hcf, List.pairwise_singleton _ _, ?_⟩
    intro a ha nb hnb
    rw [List.mem_singleton] at hnb
    subst hnb
    intro hlid hsa _
    have := (isAvailable_iff s.bookings lid ci co).mp hav a ha hlid hsa
    unfold overlapB
    unfold overlapsRange at this
    exact this
  · rw [List.map_append]
    simp only [List.map_cons, List.map_nil]
    rw [List.nodup_append]
    refine ⟨hnd, List.nodup_singleton _, ?_⟩
    intro x hx hx2
    rw [List.mem_singleton] at hx2
    obtain ⟨y, hy, rfl⟩ := List.mem_map.mp hx
    have hyb := hbound y hy
    rw [hx2] at hyb
    exact absurd hyb (Nat.lt_irrefl _)
  · intro x hx
    rw [List.mem_append] at hx
    cases hx with
    | inl hx => exact Nat.lt_trans (hbound x hx) (Nat.lt_succ_self _)
    | inr hx =>
        rw [List.mem_singleton] at hx
        subst hx
        exact Nat.lt_succ_self _

theorem applyOp_create_ok (s : Store) (lid user ci co : Nat) (s2 : Store)
    (h : createBooking s lid user ci co = .ok s2) :
    applyOp s (.create lid user ci co) = s2 := by
  simp only [applyOp, h]

theorem applyOp_create_err (s : Store) (lid user ci co : Nat) (e : CreateError)
    (h : createBooking s lid user ci co = .error e) :
    applyOp s (.create lid user ci co) = s := by
  simp only [applyOp, h]

theorem applyOp_confirm_ok (s : Store) (user pk : Nat) (bs : List Booking)
    (h : confirm s.bookings user pk = .ok bs) :
    applyOp s (.doConfirm user pk) = { s with bookings := bs } := by
  simp only [applyOp, h]

theorem applyOp_confirm_err (s : Store) (user pk : Nat) (e : String)
    (h : confirm s.bookings user pk = .error e) :
    applyOp s (.doConfirm user pk) = s := by
  simp only [applyOp, h]

theorem applyOp_cancel_ok (s : Store) (user pk : Nat) (bs : List Booking)
    (h : cancel s.bookings user pk = .ok bs) :
    applyOp s (.doCancel user pk) = { s with bookings := bs } := by
  simp only [applyOp, h]

theorem applyOp_cancel_err (s : Store) (user pk : Nat) (e : String)
    (h : cancel s.bookings user pk = .error e) :
    applyOp s (.doCancel user pk) = s := by
  simp only [applyOp, h]

theorem applyOp_preserves_inv (s : Store) (op : Op) (hinv : StoreInv s) :
    StoreInv (applyOp s op) := by
  cases op with
  | create lid user ci co =>
      cases hc : createBooking s lid user ci co with
      | ok s2 =>
          rw [applyOp_create_ok s lid user ci co s2 hc]
          exact create_preserves_inv s lid user ci co s2 hinv hc
      | error e => rw [applyOp_create_err s lid user ci co e hc]; exact hinv
  | doConfirm user pk =>
      cases hc : confirm s.bookings user pk with
      | ok bs =>
          rw [applyOp_confirm_ok s user pk bs hc]
          obtain ⟨b, hobj, hst, hbs⟩ := confirm_inverted s.bookings user pk bs hc
          obtain ⟨hmem, _, _⟩ := getObject_mem s.bookings user pk b hobj
          rw [hbs]
          exact updateStatus_preserves_inv s b BStatus.confirmed hinv hmem
            (fun _ => by rw [hst]; rfl)
      | error e => rw [applyOp_confirm_err s user pk e hc]; exact hinv
  | doCancel user pk =>
      cases hc : cancel s.bookings user pk with
      | ok bs =>
          rw [applyOp_cancel_ok s user pk bs hc]
          obtain ⟨b, hobj, hst, hbs⟩ := cancel_inverted s.bookings user pk bs hc
          obtain ⟨hmem, _, _⟩ := getObject_mem s.bookings user pk b hobj
          rw [hbs]
          exact updateStatus_preserves_inv s b BStatus.cancelled hinv hmem
            (fun hact => by cases hact)
      | error e => rw [applyOp_cancel_err s user pk e hc]; exact hinv

theorem runOps_preserves_inv (s : Store) (ops : List Op) (hinv : StoreInv s) :
    StoreInv (runOps s ops) := by
  induction ops generalizing s with
  | nil => exact hinv
  | cons op t ih => exact ih (applyOp s op) (applyOp_preserves_inv s op hinv)

theorem mem_queryset_price_bounds (listings : List Listing) (bookings : List Booking)
    (p : ListingQueryParams) (l : Listing) (h : l ∈ listingGetQueryset listings bookings p) :
    (∀ m, p.min_price = some m → m ≤ l.price_per_night) ∧
    (∀ m, p.max_price = some m → l.price_per_night ≤ m) := by
  obtain ⟨mp, xp, ci, co⟩ := p
  cases mp <;> cases xp <;> cases ci <;> cases co <;>
    simp only [listingGetQueryset, List.mem_filter, decide_eq_true_eq] at h <;>
    constructor <;> intro m hm <;> simp_all

/-! ### Claim theorems -/

/-- C6: half-open boundary — on the same listing, a booking for
`[2024-06-01, 2024-06-05)` does not conflict with a request for
`[2024-06-05, 2024-06-10)` (the listing survives the availability filter),
while a request for `[2024-06-03, 2024-06-07)` does conflict with it
(the listing is filtered out). -/
theorem half_open_boundary :
    ((overlappingBookingListingIds [⟨1, 7, 3, 20240601, 20240605, BStatus.pending⟩]
        20240605 20240610).contains 7 = false) ∧
    ((overlappingBookingListingIds [⟨1, 7, 3, 20240601, 20240605, BStatus.pending⟩]
        20240603 20240607).contains 7 = true) ∧
    listingGetQueryset [⟨7, 100, true⟩]
        [⟨1, 7, 3, 20240601, 20240605, BStatus.pending⟩]
        ⟨none, none, some 20240605, some 20240610⟩ = [⟨7, 100, true⟩] ∧
    listingGetQueryset [⟨7, 100, true⟩]
        [⟨1, 7, 3, 20240601, 20240605, BStatus.pending⟩]
        ⟨none, none, some 20240603, some 20240607⟩ = [] := by
  decide

/-- C7: no-filter default — when either date parameter is absent the listing
query applies no date filtering, and with no parameters at all it returns the
full catalog of active listings unchanged, in the same order. -/
theorem no_filter_default (listings : List Listing) (bookings : List Booking)
    (p : ListingQueryParams) (hact : ∀ l ∈ listings, l.is_active = true)
    (hdates : p.check_in_date = none ∨ p.check_out_date = none) :
    listingGetQueryset listings bookings p =
      listingGetQueryset listings bookings ⟨p.min_price, p.max_price, none, none⟩ ∧
    (p.min_price = none → p.max_price = none →
      listingGetQueryset listings bookings p = listings) := by
  obtain ⟨mp, xp, ci, co⟩ := p
  constructor
  · rcases hdates with h | h
    · replace h : ci = none := h
      subst h
      cases co <;> rfl
    · replace h : co = none := h
      subst h
      cases ci <;> rfl
  · intro hmp hxp
    replace hmp : mp = none := hmp
    replace hxp : xp = none := hxp
    subst hmp; subst hxp
    have hfull : listings.filter (fun l => l.is_active) = listings :=
      List.filter_eq_self.mpr hact
    rcases hdates with h | h
    · replace h : ci = none := h
      subst h
      cases co <;> exact hfull
    · replace h : co = none := h
      subst h
      cases ci <;> exact hfull

/-- C2: for a catalog of active listings and present dates `ci < co`, the
availability filter returns exactly the input listings minus those having at
least one booking with status pending or confirmed satisfying
`check_in_date < co` and `check_out_date > ci`, preserving input order
(the result is a filter of the input; the operation reads but never writes
the stores). -/
theorem availability_filter_matches_spec (listings : List Listing)
    (bookings : List Booking) (ci co : Nat)
    (hact : ∀ l ∈ listings, l.is_active = true) (hd : ci < co) :
    listingGetQueryset listings bookings ⟨none, none, some ci, some co⟩ =
      listAvailableSpec listings bookings ci co := by
  show (listings.filter (fun l => l.is_active)).filter
      (fun l => !((overlappingBookingListingIds bookings ci co).contains l.id)) =
    listAvailableSpec listings bookings ci co
  unfold listAvailableSpec
  rw [List.filter_eq_self.mpr hact]
  apply List.filter_congr
  intro l hl
  have hbridge : (overlappingBookingListingIds bookings ci co).contains l.id =
      bookings.any (fun b =>
        (b.status == BStatus.pending || b.status == BStatus.confirmed) &&
          b.check_in_date < co && b.check_out_date > ci && b.listing_id == l.id) := by
    rw [Bool.eq_iff_iff, contains_overlapping_iff, List.any_eq_true]
    simp only [isActiveStatus, overlapsRange, Bool.and_eq_true, Bool.or_eq_true, beq_iff_eq,
      decide_eq_true_eq, gt_iff_lt]
    constructor
    · rintro ⟨b, hb, hs, ⟨h1, h2⟩, h4⟩
      exact ⟨b, hb, ⟨⟨hs.symm, h1⟩, h2⟩, h4⟩
    · rintro ⟨b, hb, ⟨⟨hs, h1⟩, h2⟩, h4⟩
      exact ⟨b, hb, hs.symm, ⟨h1, h2⟩, h4⟩
  rw [hbridge]

/-- C2 witness: the theorem applied at a concrete catalog and date range. -/
theorem availability_filter_matches_spec_witness :
    listingGetQueryset [⟨7, 100, true⟩, ⟨8, 120, true⟩]
        [⟨1, 7, 3, 20240601, 20240605, BStatus.pending⟩]
        ⟨none, none, some 20240603, some 20240607⟩ =
      listAvailableSpec [⟨7, 100, true⟩, ⟨8, 120, true⟩]
        [⟨1, 7, 3, 20240601, 20240605, BStatus.pending⟩] 20240603 20240607 :=
  availability_filter_matches_spec [⟨7, 100, true⟩, ⟨8, 120, true⟩]
    [⟨1, 7, 3, 20240601, 20240605, BStatus.pending⟩] 20240603 20240607
    (by decide) (by decide)

/-- C7 witness: the theorem applied at a concrete catalog with no parameters. -/
theorem no_filter_default_witness :
    listingGetQueryset [⟨7, 100, true⟩, ⟨8, 120, true⟩]
        [⟨1, 7, 3, 20240601, 20240605, BStatus.pending⟩] ⟨none, none, none, none⟩ =
      listingGetQueryset [⟨7, 100, true⟩, ⟨8, 120, true⟩]
        [⟨1, 7, 3, 20240601, 20240605, BStatus.pending⟩] ⟨none, none, none, none⟩ ∧
    ((none : Option Int) = none → (none : Option Int) = none →
      listingGetQueryset [⟨7, 100, true⟩, ⟨8, 120, true⟩]
        [⟨1, 7, 3, 20240601, 20240605, BStatus.pending⟩] ⟨none, none, none, none⟩ =
      [⟨7, 100, true⟩, ⟨8, 120, true⟩]) :=
  no_filter_default [⟨7, 100, true⟩, ⟨8, 120, true⟩]
    [⟨1, 7, 3, 20240601, 20240605, BStatus.pending⟩] ⟨none, none, none, none⟩
    (by decide) (Or.inl rfl)

/-- C10: the dedicated `available` action returns exactly the general listing
query when both dates are present (so price-range parameters still apply:
any listing in the result has `price_per_night` within `[min_price,
max_price]`), and returns the both-dates-required error itself when either
date is missing. -/
theorem available_action_composes_filters (listings : List Listing)
    (bookings : List Booking) (p : ListingQueryParams) :
    (∀ ci co, p.check_in_date = some ci → p.check_out_date = some co →
      availableAction listings bookings p =
        .ok (listingGetQueryset listings bookings p)) ∧
    ((p.check_in_date = none ∨ p.check_out_date = none) →
      availableAction listings bookings p =
        .error "Both check_in_date and check_out_date are required") ∧
    (∀ res, availableAction listings bookings p = .ok res → ∀ l ∈ res,
      (∀ m, p.min_price = some m → m ≤ l.price_per_night) ∧
      (∀ m, p.max_price = some m → l.price_per_night ≤ m)) := by
  obtain ⟨mp, xp, ci0, co0⟩ := p
  refine ⟨?_, ?_, ?_⟩
  · intro ci co h1 h2
    replace h1 : ci0 = some ci := h1
    replace h2 : co0 = some co := h2
    subst h1; subst h2
    rfl
  · intro h
    rcases h with h | h
    · replace h : ci0 = none := h
      subst h
      cases co0 <;> rfl
    · replace h : co0 = none := h
      subst h
      cases ci0 <;> rfl
  · intro res hres l hl
    cases ci0 with
    | none => cases co0 <;> cases hres
    | some ci =>
        cases co0 with
        | none => cases hres
        | some co =>
            cases hres
            exact mem_queryset_price_bounds listings bookings ⟨mp, xp, some ci, some co⟩ l hl

theorem confirm_eq_of_getObject (bookings : List Booking) (user pk : Nat) (b : Booking)
    (hb : getObject bookings user pk = some b) :
    confirm bookings user pk =
      if b.status != BStatus.pending then
        .error ("Cannot confirm a booking that is " ++ statusName b.status)
      else .ok (updateBooking bookings { b with status := BStatus.confirmed }) := by
  unfold confirm
  rw [hb]

theorem cancel_eq_of_getObject (bookings : List Booking) (user pk : Nat) (b : Booking)
    (hb : getObject bookings user pk = some b) :
    cancel bookings user pk =
      if b.status == BStatus.cancelled || b.status == BStatus.completed then
        .error ("Cannot cancel a booking that is already " ++ statusName b.status)
      else .ok (updateBooking bookings { b with status := BStatus.cancelled }) := by
  unfold cancel
  rw [hb]

theorem getObject_none_of_unowned (bookings : List Booking) (u pk : Nat)
    (h : ∀ b ∈ bookings, b.id = pk → b.user ≠ u) :
    getObject bookings u pk = none := by
  rw [getObject_eq_find?, List.find?_eq_none]
  intro x hx hpx
  rw [Bool.and_eq_true, beq_iff_eq, beq_iff_eq] at hpx
  exact h x hx hpx.2 hpx.1

/-- C4: `confirm` succeeds exactly from `pending`, its sole status effect
setting the booking's status to `confirmed`; from any other status it fails
with an error message naming the current status and leaves the store
unchanged. -/
theorem confirm_transition_spec (bookings : List Booking) (user pk : Nat) (b : Booking)
    (hb : getObject bookings user pk = some b) :
    (b.status = BStatus.pending →
      confirm bookings user pk =
        .ok (updateBooking bookings { b with status := BStatus.confirmed })) ∧
    (b.status ≠ BStatus.pending →
      confirm bookings user pk =
        .error ("Cannot confirm a booking that is " ++ statusName b.status) ∧
      ∀ s : Store, s.bookings = bookings → applyOp s (.doConfirm user pk) = s) := by
  have hconf := confirm_eq_of_getObject bookings user pk b hb
  constructor
  · intro hst
    rw [hconf, if_neg]
    rw [hst]
    simp
  · intro hst
    have herr : confirm bookings user pk =
        .error ("Cannot confirm a booking that is " ++ statusName b.status) := by
      rw [hconf, if_pos (bne_iff_ne.mpr hst)]
    refine ⟨herr, ?_⟩
    intro s hs
    exact applyOp_confirm_err s user pk _ (by rw [hs]; exact herr)

/-- C4 witness: confirming a pending booking and a completed booking. -/
theorem confirm_transition_spec_witness :
    ((⟨0, 1, 9, 20240601, 20240605, BStatus.pending⟩ : Booking).status = BStatus.pending →
      confirm [⟨0, 1, 9, 20240601, 20240605, BStatus.pending⟩] 9 0 =
        .ok (updateBooking [⟨0, 1, 9, 20240601, 20240605, BStatus.pending⟩]
          ⟨0, 1, 9, 20240601, 20240605, BStatus.confirmed⟩)) ∧
    ((⟨0, 1, 9, 20240601, 20240605, BStatus.pending⟩ : Booking).status ≠ BStatus.pending →
      confirm [⟨0, 1, 9, 20240601, 20240605, BStatus.pending⟩] 9 0 =
        .error ("Cannot confirm a booking that is " ++
          statusName (⟨0, 1, 9, 20240601, 20240605, BStatus.pending⟩ : Booking).status) ∧
      ∀ s : Store, s.bookings = [⟨0, 1, 9, 20240601, 20240605, BStatus.pending⟩] →
        applyOp s (.doConfirm 9 0) = s) :=
  confirm_transition_spec [⟨0, 1, 9, 20240601, 20240605, BStatus.pending⟩] 9 0
    ⟨0, 1, 9, 20240601, 20240605, BStatus.pending⟩ (by decide)

/-- C5: `cancel` succeeds exactly from `pending` or `confirmed`, setting the
status to the terminal `cancelled`; from `cancelled` or `completed` it fails
with an error naming the current status and leaves the store unchanged.
After a successful cancel, `confirm` on the booking fails naming `cancelled`
and a second `cancel` fails naming `cancelled`. -/
theorem cancel_transition_spec (bookings : List Booking) (user pk : Nat) (b : Booking)
    (hb : getObject bookings user pk = some b) :
    ((b.status = BStatus.pending ∨ b.status = BStatus.confirmed) →
      cancel bookings user pk =
        .ok (updateBooking bookings { b with status := BStatus.cancelled }) ∧
      confirm (updateBooking bookings { b with status := BStatus.cancelled }) user pk =
        .error "Cannot confirm a booking that is cancelled" ∧
      cancel (updateBooking bookings { b with status := BStatus.cancelled }) user pk =
        .error "Cannot cancel a booking that is already cancelled") ∧
    ((b.status = BStatus.cancelled ∨ b.status = BStatus.completed) →
      cancel bookings user pk =
        .error ("Cannot cancel a booking that is already " ++ statusName b.status) ∧
      ∀ s : Store, s.bookings = bookings → applyOp s (.doCancel user pk) = s) := by
  have hcan := cancel_eq_of_getObject bookings user pk b hb
  have hobj2 : getObject (updateBooking bookings { b with status := BStatus.cancelled })
      user pk = some { b with status := BStatus.cancelled } :=
    getObject_updateBooking bookings user pk b _ hb rfl rfl
  constructor
  · intro hst
    refine ⟨?_, ?_, ?_⟩
    · rw [hcan, if_neg]
      rcases hst with h | h <;> rw [h] <;> simp
    · rw [confirm_eq_of_getObject _ user pk _ hobj2, if_pos (by simp [statusName])]
      rfl
    · rw [cancel_eq_of_getObject _ user pk _ hobj2, if_pos (by simp [statusName])]
      rfl
  · intro hst
    have herr : cancel bookings user pk =
        .error ("Cannot cancel a booking that is already " ++ statusName b.status) := by
      rw [hcan, if_pos]
      rcases hst with h | h <;> rw [h] <;> simp
    refine ⟨herr, ?_⟩
    intro s hs
    exact applyOp_cancel_err s user pk _ (by rw [hs]; exact herr)

/-- C5 witness: cancelling a confirmed booking, then observing that both a
second cancel and a confirm are rejected naming `cancelled`. -/
theorem cancel_transition_spec_witness :
    (((⟨0, 1, 9, 20240601, 20240605, BStatus.confirmed⟩ : Booking).status = BStatus.pending ∨
      (⟨0, 1, 9, 20240601, 20240605, BStatus.confirmed⟩ : Booking).status = BStatus.confirmed) →
      cancel [⟨0, 1, 9, 20240601, 20240605, BStatus.confirmed⟩] 9 0 =
        .ok (updateBooking [⟨0, 1, 9, 20240601, 20240605, BStatus.confirmed⟩]
          ⟨0, 1, 9, 20240601, 20240605, BStatus.cancelled⟩) ∧
      confirm (updateBooking [⟨0, 1, 9, 20240601, 20240605, BStatus.confirmed⟩]
          ⟨0, 1, 9, 20240601, 20240605, BStatus.cancelled⟩) 9 0 =
        .error "Cannot confirm a booking that is cancelled" ∧
      cancel (updateBooking [⟨0, 1, 9, 20240601, 20240605, BStatus.confirmed⟩]
          ⟨0, 1, 9, 20240601, 20240605, BStatus.cancelled⟩) 9 0 =
        .error "Cannot cancel a booking that is already cancelled") ∧
    (((⟨0, 1, 9, 20240601, 20240605, BStatus.confirmed⟩ : Booking).status = BStatus.cancelled ∨
      (⟨0, 1, 9, 20240601, 20240605, BStatus.confirmed⟩ : Booking).status = BStatus.completed) →
      cancel [⟨0, 1, 9, 20240601, 20240605, BStatus.confirmed⟩] 9 0 =
        .error ("Cannot cancel a booking that is already " ++
          statusName (⟨0, 1, 9, 20240601, 20240605, BStatus.confirmed⟩ : Booking).status) ∧
      ∀ s : Store, s.bookings = [⟨0, 1, 9, 20240601, 20240605, BStatus.confirmed⟩] →
        applyOp s (.doCancel 9 0) = s) :=
  cancel_transition_spec [⟨0, 1, 9, 20240601, 20240605, BStatus.confirmed⟩] 9 0
    ⟨0, 1, 9, 20240601, 20240605, BStatus.confirmed⟩ (by decide)

theorem update_preserves_other_users (bookings : List Booking) (u : Nat) (b : Booking)
    (st : BStatus) (hnd : (bookings.map Booking.id).Nodup) (hmem : b ∈ bookings)
    (hu : b.user = u) :
    (updateBooking bookings { b with status := st }).filter (fun x => !(x.user == u)) =
      bookings.filter (fun x => !(x.user == u)) := by
  unfold updateBooking
  apply filter_map_stable
  intro x hx
  by_cases hxb : x.id = b.id
  · have hxeq : x = b := id_injective_of_nodup bookings hnd x b hx hmem hxb
    subst hxeq
    rw [if_pos (beq_iff_eq.mpr rfl)]
    constructor
    · simp [hu]
    · intro hp
      rw [hu] at hp
      simp at hp
  · rw [if_neg (by simpa using hxb)]
    exact ⟨rfl, fun _ => rfl⟩

/-- C9: owner scoping — the booking queryset contains only the requesting
actor's bookings; cancel/confirm on a booking that is not the actor's behave
as if it does not exist (404); a successful cancel/confirm mutates no other
actor's booking; and the queryset an actor sees is unchanged by any
modification confined to other actors' bookings. -/
theorem owner_scoping (bookings : List Booking) (u pk : Nat)
    (hnd : (bookings.map Booking.id).Nodup) :
    (∀ b ∈ bookingGetQueryset bookings u, b.user = u) ∧
    ((∀ b ∈ bookings, b.id = pk → b.user ≠ u) →
      cancel bookings u pk = .error "Not found" ∧
      confirm bookings u pk = .error "Not found") ∧
    (∀ bs2, cancel bookings u pk = .ok bs2 →
      bs2.filter (fun x => !(x.user == u)) = bookings.filter (fun x => !(x.user == u))) ∧
    (∀ bs2, confirm bookings u pk = .ok bs2 →
      bs2.filter (fun x => !(x.user == u)) = bookings.filter (fun x => !(x.user == u))) ∧
    (∀ f : Booking → Booking, (∀ b : Booking, b.user = u → f b = b) →
      (∀ b : Booking, b.user ≠ u → (f b).user ≠ u) →
      bookingGetQueryset (bookings.map f) u = bookingGetQueryset bookings u) := by
  refine ⟨?_, ?_, ?_, ?_, ?_⟩
  · intro b hb
    have := List.mem_filter.mp hb
    exact beq_iff_eq.mp this.2
  · intro h
    have hobj := getObject_none_of_unowned bookings u pk h
    constructor
    · unfold cancel; rw [hobj]
    · unfold confirm; rw [hobj]
  · intro bs2 hc
    obtain ⟨b, hobj, _, hbs⟩ := cancel_inverted bookings u pk bs2 hc
    obtain ⟨hmem, hu, _⟩ := getObject_mem bookings u pk b hobj
    rw [hbs]
    exact update_preserves_other_users bookings u b BStatus.cancelled hnd hmem hu
  · intro bs2 hc
    obtain ⟨b, hobj, _, hbs⟩ := confirm_inverted bookings u pk bs2 hc
    obtain ⟨hmem, hu, _⟩ := getObject_mem bookings u pk b hobj
    rw [hbs]
    exact update_preserves_other_users bookings u b BStatus.confirmed hnd hmem hu
  · intro f hfix hother
    unfold bookingGetQueryset
    apply filter_map_stable
    intro x _
    by_cases hx : x.user = u
    · rw [hfix x hx]
      exact ⟨rfl, fun _ => rfl⟩
    · constructor
      · rw [Bool.eq_iff_iff, beq_iff_eq, beq_iff_eq]
        exact ⟨fun hh => absurd hh (hother x hx), fun hh => absurd hh hx⟩
      · intro hp
        rw [beq_iff_eq] at hp
        exact absurd hp hx

/-- C9 witness: a two-user store with one booking each. -/
theorem owner_scoping_witness :
    (∀ b ∈ bookingGetQueryset [⟨0, 1, 9, 20240601, 20240605, BStatus.pending⟩,
        ⟨1, 1, 8, 20240701, 20240705, BStatus.pending⟩] 9, b.user = 9) ∧
    ((∀ b ∈ [⟨0, 1, 9, 20240601, 20240605, BStatus.pending⟩,
        ⟨1, 1, 8, 20240701, 20240705, BStatus.pending⟩], Booking.id b = 1 →
        Booking.user b ≠ 9) →
      cancel [⟨0, 1, 9, 20240601, 20240605, BStatus.pending⟩,
        ⟨1, 1, 8, 20240701, 20240705, BStatus.pending⟩] 9 1 = .error "Not found" ∧
      confirm [⟨0, 1, 9, 20240601, 20240605, BStatus.pending⟩,
        ⟨1, 1, 8, 20240701, 20240705, BStatus.pending⟩] 9 1 = .error "Not found") ∧
    (∀ bs2, cancel [⟨0, 1, 9, 20240601, 20240605, BStatus.pending⟩,
        ⟨1, 1, 8, 20240701, 20240705, BStatus.pending⟩] 9 1 = .ok bs2 →
      bs2.filter (fun x => !(x.user == 9)) =
        List.filter (fun x => !(x.user == 9))
          [⟨0, 1, 9, 20240601, 20240605, BStatus.pending⟩,
           ⟨1, 1, 8, 20240701, 20240705, BStatus.pending⟩]) ∧
    (∀ bs2, confirm [⟨0, 1, 9, 20240601, 20240605, BStatus.pending⟩,
        ⟨1, 1, 8, 20240701, 20240705, BStatus.pending⟩] 9 1 = .ok bs2 →
      bs2.filter (fun x => !(x.user == 9)) =
        List.filter (fun x => !(x.user == 9))
          [⟨0, 1, 9, 20240601, 20240605, BStatus.pending⟩,
           ⟨1, 1, 8, 20240701, 20240705, BStatus.pending⟩]) ∧
    (∀ f : Booking → Booking, (∀ b : Booking, b.user = 9 → f b = b) →
      (∀ b : Booking, b.user ≠ 9 → (f b).user ≠ 9) →
      bookingGetQueryset (List.map f [⟨0, 1, 9, 20240601, 20240605, BStatus.pending⟩,
        ⟨1, 1, 8, 20240701, 20240705, BStatus.pending⟩]) 9 =
      bookingGetQueryset [⟨0, 1, 9, 20240601, 20240605, BStatus.pending⟩,
        ⟨1, 1, 8, 20240701, 20240705, BStatus.pending⟩] 9) :=
  owner_scoping [⟨0, 1, 9, 20240601, 20240605, BStatus.pending⟩,
    ⟨1, 1, 8, 20240701, 20240705, BStatus.pending⟩] 9 1 (by decide)

/-- C1: no double-booking — starting from any store satisfying the store
invariant, after any sequence (any serialized interleaving of concurrent
attempts, per spec §5) of createBooking/confirm/cancel operations, the
bookings with status pending or confirmed on the same listing have pairwise
non-overlapping half-open intervals. -/
theorem no_double_booking_invariant (s : Store) (hinv : StoreInv s) (ops : List Op) :
    conflictFree (runOps s ops).bookings :=
  (runOps_preserves_inv s ops hinv).1

/-- C1 witness: a concrete history with a successful creation, a confirmation,
a conflicting attempt, and a back-to-back booking. -/
theorem no_double_booking_invariant_witness :
    conflictFree (runOps ⟨[⟨1, 100, true⟩], [], 0⟩
      [Op.create 1 5 20240601 20240605, Op.doConfirm 5 0,
       Op.create 1 6 20240603 20240607, Op.create 1 6 20240605 20240610]).bookings :=
  no_double_booking_invariant ⟨[⟨1, 100, true⟩], [], 0⟩
    ⟨List.Pairwise.nil, List.nodup_nil, fun b hb => absurd hb (List.not_mem_nil b)⟩ _

/-- C3: for an active listing and dates `ci < co`, createBooking persists a
new pending booking owned by the actor when no pending/confirmed booking on
the listing overlaps, fails with Conflict when one does, and in particular
fails with Conflict whenever the availability filter excludes the listing for
those dates. -/
theorem createBooking_conflict_spec (s : Store) (l : Listing) (user ci co : Nat)
    (hl : l ∈ s.listings) (hact : l.is_active = true) (hd : ci < co) :
    (isAvailable s.bookings l.id ci co = true →
      createBooking s l.id user ci co =
        .ok { s with
              bookings := s.bookings ++
                [⟨s.nextId, l.id, user, ci, co, BStatus.pending⟩],
              nextId := s.nextId + 1 }) ∧
    (isAvailable s.bookings l.id ci co = false →
      createBooking s l.id user ci co = .error CreateError.conflict) ∧
    (l ∉ listingGetQueryset s.listings s.bookings ⟨none, none, some ci, some co⟩ →
      createBooking s l.id user ci co = .error CreateError.conflict) := by
  have hany : s.listings.any (fun x => x.id == l.id && x.is_active) = true := by
    rw [List.any_eq_true]
    exact ⟨l, hl, by rw [Bool.and_eq_true, beq_iff_eq]; exact ⟨rfl, hact⟩⟩
  have hnle : ¬(co ≤ ci) := Nat.not_le.mpr hd
  refine ⟨?_, ?_, ?_⟩
  · intro hav
    unfold createBooking
    rw [if_neg hnle, if_neg (by rw [hany]; simp), if_pos hav]
  · intro hav
    unfold createBooking
    rw [if_neg hnle, if_neg (by rw [hany]; simp), if_neg (by rw [hav]; simp)]
  · intro hmem
    have hcontains : (overlappingBookingListingIds s.bookings ci co).contains l.id = true := by
      by_contra hc
      rw [Bool.not_eq_true] at hc
      apply hmem
      show l ∈ (s.listings.filter (fun x => x.is_active)).filter
        (fun x => !((overlappingBookingListingIds s.bookings ci co).contains x.id))
      rw [List.mem_filter]
      refine ⟨List.mem_filter.mpr ⟨hl, hact⟩, ?_⟩
      rw [hc]
      rfl
    obtain ⟨b, hbmem, hbact, hbov, hblid⟩ :=
      (contains_overlapping_iff s.bookings ci co l.id).mp hcontains
    have hav : isAvailable s.bookings l.id ci co = false := by
      by_contra hcc
      rw [Bool.not_eq_false] at hcc
      have hfalse := (isAvailable_iff s.bookings l.id ci co).mp hcc b hbmem hblid hbact
      rw [hbov] at hfalse
      cases hfalse
    unfold createBooking
    rw [if_neg hnle, if_neg (by rw [hany]; simp), if_neg (by rw [hav]; simp)]

/-- C3 witness: a store with a conflicting pending booking on the listing. -/
theorem createBooking_conflict_spec_witness :
    (isAvailable [⟨0, 1, 9, 20240601, 20240605, BStatus.pending⟩]
        (Listing.id ⟨1, 50, true⟩) 20240603 20240607 = true →
      createBooking ⟨[⟨1, 50, true⟩], [⟨0, 1, 9, 20240601, 20240605, BStatus.pending⟩], 1⟩
          (Listing.id ⟨1, 50, true⟩) 2 20240603 20240607 =
        .ok { listings := [⟨1, 50, true⟩],
              bookings := [⟨0, 1, 9, 20240601, 20240605, BStatus.pending⟩] ++
                [⟨1, Listing.id ⟨1, 50, true⟩, 2, 20240603, 20240607, BStatus.pending⟩],
              nextId := 2 }) ∧
    (isAvailable [⟨0, 1, 9, 20240601, 20240605, BStatus.pending⟩]
        (Listing.id ⟨1, 50, true⟩) 20240603 20240607 = false →
      createBooking ⟨[⟨1, 50, true⟩], [⟨0, 1, 9, 20240601, 20240605, BStatus.pending⟩], 1⟩
          (Listing.id ⟨1, 50, true⟩) 2 20240603 20240607 = .error CreateError.conflict) ∧
    ((⟨1, 50, true⟩ : Listing) ∉ listingGetQueryset [⟨1, 50, true⟩]
        [⟨0, 1, 9, 20240601, 20240605, BStatus.pending⟩]
        ⟨none, none, some 20240603, some 20240607⟩ →
      createBooking ⟨[⟨1, 50, true⟩], [⟨0, 1, 9, 20240601, 20240605, BStatus.pending⟩], 1⟩
          (Listing.id ⟨1, 50, true⟩) 2 20240603 20240607 = .error CreateError.conflict) :=
  createBooking_conflict_spec
    ⟨[⟨1, 50, true⟩], [⟨0, 1, 9, 20240601, 20240605, BStatus.pending⟩], 1⟩
    ⟨1, 50, true⟩ 2 20240603 20240607 (by decide) (by decide) (by decide)

/-- C8: cancellation frees capacity — after successfully creating booking A
and then cancelling it, A no longer blocks the interval: the listing passes
the availability filter for the same dates and a new booking for the same
dates succeeds. -/
theorem updateBooking_append_fresh (bs : List Booking) (a c : Booking)
    (hfresh : ∀ b ∈ bs, b.id ≠ a.id) (hac : c.id = a.id) :
    updateBooking (bs ++ [a]) c = bs ++ [c] := by
  unfold updateBooking
  rw [List.map_append]
  congr 1
  · have h : ∀ x ∈ bs, (if x.id == c.id then c else x) = x := by
      intro x hx
      rw [if_neg]
      rw [beq_iff_eq, hac]
      exact hfresh x hx
    have h2 : List.map (fun x => if x.id == c.id then c else x) bs =
        List.map (fun x => x) bs := List.map_congr_left h
    rw [h2, List.map_id']
  · simp only [List.map_cons, List.map_nil]
    rw [if_pos (beq_iff_eq.mpr hac.symm)]

theorem cancellation_frees_capacity (s : Store) (lid user ci co : Nat) (s1 : Store)
    (hbound : ∀ b ∈ s.bookings, b.id < s.nextId)
    (hc : createBooking s lid user ci co = .ok s1) :
    ∃ bs2, cancel s1.bookings user s.nextId = .ok bs2 ∧
      isAvailable bs2 lid ci co = true ∧
      (∀ user2 : Nat, createBooking { s1 with bookings := bs2 } lid user2 ci co =
        .ok { s1 with
              bookings := bs2 ++ [⟨s1.nextId, lid, user2, ci, co, BStatus.pending⟩],
              nextId := s1.nextId + 1 }) ∧
    (∀ l ∈ s.listings, l.id = lid → l.is_active = true →
      l ∈ listingGetQueryset s.listings bs2 ⟨none, none, some ci, some co⟩) := by
  obtain ⟨hd, hany, hav, rfl⟩ := create_inverted s lid user ci co s1 hc
  have hnle : ¬(co ≤ ci) := Nat.not_le.mpr hd
  have hav2 : isAvailable
      (s.bookings ++ [⟨s.nextId, lid, user, ci, co, BStatus.cancelled⟩]) lid ci co = true := by
    unfold isAvailable at hav ⊢
    rw [List.isEmpty_iff] at hav ⊢
    rw [List.filter_append, hav, List.nil_append]
    simp [isActiveStatus]
  refine ⟨s.bookings ++ [⟨s.nextId, lid, user, ci, co, BStatus.cancelled⟩], ?_, hav2, ?_, ?_⟩
  · have hobj : getObject
        (s.bookings ++ [⟨s.nextId, lid, user, ci, co, BStatus.pending⟩]) user s.nextId =
        some ⟨s.nextId, lid, user, ci, co, BStatus.pending⟩ := by
      rw [getObject_eq_find?, List.find?_append]
      have h1 : s.bookings.find? (fun x => (x.user == user) && (x.id == s.nextId)) = none := by
        rw [List.find?_eq_none]
        intro x hx hpx
        rw [Bool.and_eq_true, beq_iff_eq, beq_iff_eq] at hpx
        exact absurd (hpx.2 ▸ hbound x hx) (Nat.lt_irrefl _)
      rw [h1]
      simp
    have hupd : updateBooking
        (s.bookings ++ [⟨s.nextId, lid, user, ci, co, BStatus.pending⟩])
        ⟨s.nextId, lid, user, ci, co, BStatus.cancelled⟩ =
        s.bookings ++ [⟨s.nextId, lid, user, ci, co, BStatus.cancelled⟩] :=
      updateBooking_append_fresh s.bookings _ _
        (fun b hb => Nat.ne_of_lt (hbound b hb)) rfl
    rw [cancel_eq_of_getObject _ user s.nextId _ hobj, if_neg (by simp)]
    exact congrArg Except.ok hupd
  · intro user2
    show createBooking
        ⟨s.listings, s.bookings ++ [⟨s.nextId, lid, user, ci, co, BStatus.cancelled⟩],
          s.nextId + 1⟩ lid user2 ci co = _
    unfold createBooking
    rw [if_neg hnle, if_neg (by rw [hany]; simp), if_pos hav2]
  · intro l hl hlid hactl
    show l ∈ (s.listings.filter (fun x => x.is_active)).filter
      (fun x => !((overlappingBookingListingIds
        (s.bookings ++ [⟨s.nextId, lid, user, ci, co, BStatus.cancelled⟩]) ci co).contains x.id))
    rw [List.mem_filter]
    refine ⟨List.mem_filter.mpr ⟨hl, hactl⟩, ?_⟩
    have hcont : (overlappingBookingListingIds
        (s.bookings ++ [⟨s.nextId, lid, user, ci, co, BStatus.cancelled⟩]) ci co).contains
          l.id = false := by
      by_contra hcc
      rw [Bool.not_eq_false] at hcc
      obtain ⟨b, hbmem, hbact, hbov, hblid⟩ :=
        (contains_overlapping_iff _ ci co l.id).mp hcc
      have hfalse := (isAvailable_iff _ lid ci co).mp hav2 b hbmem (hblid.trans hlid) hbact
      rw [hbov] at hfalse
      cases hfalse
    rw [hcont]
    rfl

/-- C8 witness: create a booking on an empty store, cancel it, and rebook the
same dates. -/
theorem cancellation_frees_capacity_witness :
    ∃ bs2, cancel (⟨[⟨1, 50, true⟩], [⟨0, 1, 9, 20240601, 20240605, BStatus.pending⟩], 1⟩
        : Store).bookings 9 0 = .ok bs2 ∧
      isAvailable bs2 1 20240601 20240605 = true ∧
      (∀ user2 : Nat, createBooking
          { (⟨[⟨1, 50, true⟩], [⟨0, 1, 9, 20240601, 20240605, BStatus.pending⟩], 1⟩ : Store) with
            bookings := bs2 } 1 user2 20240601 20240605 =
        .ok { (⟨[⟨1, 50, true⟩], [⟨0, 1, 9, 20240601, 20240605, BStatus.pending⟩], 1⟩ : Store) with
              bookings := bs2 ++ [⟨1, 1, user2, 20240601, 20240605, BStatus.pending⟩],
              nextId := 2 }) ∧
    (∀ l ∈ [(⟨1, 50, true⟩ : Listing)], Listing.id l = 1 → Listing.is_active l = true →
      l ∈ listingGetQueryset [⟨1, 50, true⟩] bs2 ⟨none, none, some 20240601, some 20240605⟩) :=
  cancellation_frees_capacity ⟨[⟨1, 50, true⟩], [], 0⟩ 1 9 20240601 20240605
    ⟨[⟨1, 50, true⟩], [⟨0, 1, 9, 20240601, 20240605, BStatus.pending⟩], 1⟩
    (fun b hb => absurd hb (List.not_mem_nil b)) rfl

end AlxTravel
